import Mathlib

/-!
Verification of `sacred/dependencies.py`: source / dependency discovery for
experiment provenance.  The Python module is shallowly embedded below:

* filesystem paths are `String`s (Lean strings are lists of characters, which
  matches Python's treatment of paths as character strings on posix);
* the relevant parts of `os.path` (posix flavour) used by the module
  (`split`, `splitext`, `normpath`, `join`, `abspath`, `relpath`, `dirname`)
  are embedded as executable functions over `List Char`;
* the current working directory (`os.getcwd()`), the filesystem, git probing,
  `sys.modules`, `pkg_resources.working_set` and the numpy probe are an
  explicit read-only environment `Env`;
* Python module objects are records carrying the attributes the code reads
  (`__file__`, `__name__`, and the attribute table probed for versions);
* code that can raise returns `Except String`.
-/

namespace Sacred

/-- Decidable character-list membership helpers work through `BEq`;
we use plain decidable equality on `Char` throughout. -/
abbrev Chars := List Char

/-- Split a character list at every occurrence of `sep`, keeping empty
segments, like Python's `str.split(sep)`: `"a..b" ↦ ["a", "", "b"]`,
`"" ↦ [""]`. -/
def chSplit (sep : Char) : Chars → List Chars
  | [] => [[]]
  | c :: rest =>
    let tl := chSplit sep rest
    if c = sep then [] :: tl
    else
      match tl with
      | [] => [[c]]
      | seg :: segs => (c :: seg) :: segs

/-- Python `str.split('.')` on a `String`, keeping empty segments. -/
def splitDots (s : String) : List String :=
  (chSplit '.' s.data).map String.mk

/-- `'.'.join(...)` on rendered components. -/
def joinDots (l : List String) : String :=
  String.mk (List.intercalate ['.'] (l.map String.data))

/-- `sep.join` for `'/'`. -/
def joinSlash (l : List Chars) : Chars :=
  List.intercalate ['/'] l

/-- Strip all trailing `'/'` characters (the `head.rstrip('/')` of
`posixpath.split`). -/
def rstripSlash (cs : Chars) : Chars :=
  ((cs.reverse).dropWhile (fun c => c = '/')).reverse

/-- `posixpath.split`: break at the last `'/'`; the head keeps a single
meaning of trailing separators exactly as CPython does (`head` is the text up
to and including the last slash, then right-stripped of slashes unless it
consists only of slashes). -/
def posixSplit (cs : Chars) : Chars × Chars :=
  let r := cs.reverse
  let tl := (r.takeWhile (fun c => c ≠ '/')).reverse
  let headRev := r.dropWhile (fun c => c ≠ '/')
  let hd := headRev.reverse
  if hd = [] then ([], tl)
  else if hd.all (fun c => c = '/') then (hd, tl)
  else (rstripSlash hd, tl)

/-- One step of `splitall`'s `while True` loop (`dependencies.splitall`,
credit comment in the source notwithstanding).  `fuel` only bounds the
recursion; `fuel = length + 1` always suffices because the head of a
non-sentinel split is strictly shorter. -/
def splitallGo : Nat → Chars → List Chars → List Chars
  | 0, path, acc => path :: acc
  | fuel + 1, path, acc =>
    let parts := posixSplit path
    if parts.1 = path then parts.1 :: acc
    else if parts.2 = path then parts.2 :: acc
    else splitallGo fuel parts.1 (parts.2 :: acc)

/-- `dependencies.splitall`: split a path into its components,
keeping a leading root marker for absolute paths. -/
def splitall (p : String) : List String :=
  (splitallGo (p.data.length + 1) p.data []).map String.mk

/-- `posixpath.splitext` (CPython `genericpath._splitext` with `sep = '/'`,
`extsep = '.'`): split off the extension at the last dot of the basename,
provided some earlier character of the basename is not a dot. -/
def pySplitext (p : String) : String × String :=
  let cs := p.data
  let n := cs.length
  let r := cs.reverse
  -- index (from the front) one past the last '/' ; 0 when there is no '/'
  let sepP1 : Nat :=
    match r.findIdx? (fun c => c = '/') with
    | some i => n - i
    | none => 0
  match r.findIdx? (fun c => c = '.') with
  | some j =>
    let d := n - 1 - j   -- front index of the last '.'
    if sepP1 ≤ d ∧ ((cs.drop sepP1).take (d - sepP1)).any (fun c => c ≠ '.') then
      (String.mk (cs.take d), String.mk (cs.drop d))
    else (p, "")
  | none => (p, "")

/-- `posixpath.join` for two operands. -/
def joinP (a b : String) : String :=
  if b.data.head? = some '/' then b
  else if a.data = [] ∨ a.data.getLast? = some '/' then String.mk (a.data ++ b.data)
  else String.mk (a.data ++ '/' :: b.data)

/-- `posixpath.normpath`: collapse `//`, `.` and `..` components,
preserving one or exactly two leading slashes. -/
def normpath (path : String) : String :=
  if path = "" then "." else
  let cs := path.data
  let initialSlashes : Nat :=
    if cs.take 1 = ['/'] then
      (if cs.take 2 = ['/', '/'] ∧ cs.take 3 ≠ ['/', '/', '/'] then 2 else 1)
    else 0
  let comps := chSplit '/' cs
  let newComps := comps.foldl
    (fun acc comp =>
      if comp = [] ∨ comp = ['.'] then acc
      else if comp ≠ ['.', '.'] ∨ (initialSlashes = 0 ∧ acc = []) ∨
              acc.getLast? = some ['.', '.'] then acc ++ [comp]
      else if acc ≠ [] then acc.dropLast
      else acc) []
  let res := List.replicate initialSlashes '/' ++ joinSlash newComps
  if res = [] then "." else String.mk res

/-- `posixpath.abspath` with the working directory made explicit:
`normpath(path)` for absolute `path`, else `normpath(join(cwd, path))`. -/
def abspath (cwd p : String) : String :=
  if p.data.head? = some '/' then normpath p
  else normpath (joinP cwd p)

/-- `posixpath.dirname`: the head of `posixpath.split`. -/
def dirname (p : String) : String :=
  String.mk (posixSplit p.data).1

/-- Length of the longest common prefix of two component lists
(`posixpath.commonprefix` on sequences of components). -/
def commonPrefixLen : List Chars → List Chars → Nat
  | a :: as, b :: bs => if a = b then commonPrefixLen as bs + 1 else 0
  | _, _ => 0

/-- `posixpath.relpath` (posix, default `start`, both arguments made absolute
against the explicit `cwd`); defined for non-empty `path` exactly as CPython
computes it: compare the non-empty `'/'`-components of the absolutized
arguments, prepend one `..` per unmatched start component. -/
def relpath (cwd path start : String) : String :=
  let startL := (chSplit '/' (abspath cwd start).data).filter (fun c => c ≠ [])
  let pathL := (chSplit '/' (abspath cwd path).data).filter (fun c => c ≠ [])
  let i := commonPrefixLen startL pathL
  let relL := List.replicate (startL.length - i) ['.', '.'] ++ pathL.drop i
  if relL = [] then "." else String.mk (joinSlash relL)

/-! ### The PEP440 version pattern

`PEP440_VERSION_PATTERN` is (`re.VERBOSE` strips the stray blank inside the
lookbehind):

  `^(\d+!)?(\d[.\d]*(?<=\d))((?:[abc]|rc)\d+)?(\.post\d+)?(\.dev\d+)?$`

The recognizer below decides the same language deterministically.  The
decomposition is unambiguous: a `!` can only be consumed by the epoch and only
directly after the leading digit run; the letters `d`/`v` (resp. `p`/`o`/`s`/`t`)
occur solely in the `.dev` (resp. `.post`) tail, whose `\d+` is anchored at the
current end of the string so its digits are exactly the maximal trailing digit
run; a pre-release letter before that run is forced (the release part admits
only digits and dots), and when `rc` is available the single-letter `c`
alternative cannot succeed since it would leave a release ending in `r`.
`$` also matches just before one trailing newline, as in Python's `re`. -/

/-- `Char.isDigit` restricted to ASCII exactly as `\d` matches in the
pattern (the module matches `str` values; `\d` in Python 3 also covers other
unicode digits, which we do not model — version strings are ASCII). -/
def isDig (c : Char) : Bool := '0' ≤ c ∧ c ≤ '9'

/-- Strip a trailing `tag ++ digits⁺` (digits maximal) from the end, e.g.
`stripSufNumTag ".dev" "1.dev12" = some "1"`. -/
def stripSufNumTag (tag : Chars) (cs : Chars) : Option Chars :=
  let r := cs.reverse
  let dsR := r.takeWhile isDig
  let rest := r.dropWhile isDig
  if dsR = [] then none
  else if tag.reverse.isPrefixOf rest then some (rest.drop tag.length).reverse
  else none

/-- Strip a trailing pre-release `(?:[abc]|rc)\d+` if present. -/
def stripPre (cs : Chars) : Chars :=
  let r := cs.reverse
  let dsR := r.takeWhile isDig
  let rest := r.dropWhile isDig
  if dsR = [] then cs
  else
    match rest with
    | 'c' :: 'r' :: more => more.reverse
    | 'c' :: more => more.reverse
    | 'a' :: more => more.reverse
    | 'b' :: more => more.reverse
    | _ => cs

/-- The release segment `\d[.\d]*(?<=\d)`: non-empty, digits and dots only,
first and last characters digits. -/
def isRelease (cs : Chars) : Bool :=
  cs ≠ [] ∧ (cs.head?.all isDig) ∧ (cs.getLast?.all isDig) ∧
    cs.all (fun c => isDig c ∨ c = '.')

/-- Everything after the optional epoch. -/
def pep440Rest (cs : Chars) : Bool :=
  let c1 := match stripSufNumTag ['.', 'd', 'e', 'v'] cs with
    | some x => x
    | none => cs
  let c2 := match stripSufNumTag ['.', 'p', 'o', 's', 't'] c1 with
    | some x => x
    | none => c1
  isRelease (stripPre c2)

/-- The anchored body of `PEP440_VERSION_PATTERN` (without the `$`-newline
allowance). -/
def pep440Core (cs : Chars) : Bool :=
  let ds := cs.takeWhile isDig
  let rest := cs.drop ds.length
  if rest.head? = some '!' then
    if ds = [] then false else pep440Rest (rest.drop 1)
  else pep440Rest cs

/-- `PEP440_VERSION_PATTERN.match(s)` viewed as a boolean: the pattern must
cover the whole string, except that `$` may also stop just before a single
trailing newline. -/
def pep440Match (s : String) : Bool :=
  pep440Core s.data ∨ (s.data.getLast? = some '\n' ∧ pep440Core s.data.dropLast)

/-! ### Python values, modules and the environment -/

/-- The only value shapes `get_version_heuristic` distinguishes: strings,
tuples (carried as the `str(...)` renderings of their elements, which is all
`'.'.join([str(n) for n in version])` consumes), anything else. -/
inductive PyVal where
  | str (s : String)
  | tup (elems : List String)
  | other
deriving DecidableEq

/-- A Python module object, carrying exactly the attributes
`dependencies.py` reads: `__file__` (absent on builtins), `__name__`
(`none` models an object whose `__name__` access raises `AttributeError`),
and the attribute table probed by the version heuristic. -/
structure PyModule where
  file : Option String
  name : Option String
  attrs : List (String × PyVal)
deriving DecidableEq

/-- `getattr(mod, a)` on the probed attribute table; `hasattr` is
`(lookupAttr mod a).isSome`. -/
def lookupAttr (mod : PyModule) (a : String) : Option PyVal :=
  mod.attrs.lookup a

/-- The body of the version probe for one attribute value: a matching string
is returned as is; a tuple is dot-joined and returned when the join matches;
everything else (including non-matching strings and tuples) is ignored. -/
def probeAttr (v : PyVal) : Option String :=
  match v with
  | .str s => if pep440Match s then some s else none
  | .tup elems =>
    let j := joinDots elems
    if pep440Match j then some j else none
  | .other => none

/-- The `for vattr in possible_version_attributes` loop of
`PackageDependency.get_version_heuristic`. -/
def versionProbeLoop (mod : PyModule) : List String → Option String
  | [] => none
  | vattr :: rest =>
    match lookupAttr mod vattr with
    | some v =>
      match probeAttr v with
      | some s => some s
      | none => versionProbeLoop mod rest
    | none => versionProbeLoop mod rest

/-- `PackageDependency.get_version_heuristic`. -/
def get_version_heuristic (mod : PyModule) : Option String :=
  versionProbeLoop mod ["__version__", "VERSION", "version"]

/-- The read-only world `dependencies.py` runs against: working directory,
filesystem, git metadata, process registries and the numpy probe. -/
structure Env where
  cwd : String
  fileExists : String → Bool
  content : String → List Nat
  md5hex : List Nat → String
  gitInfo : String → Option (String × String × Bool)
  sysModules : List (String × Option PyModule)
  builtinNames : List String
  walk : String → List (String × List String)
  workingSet : List (String × String)
  hasNumpy : Bool
  numpyModule : PyModule

/-! ### Digest: `get_digest` streams the file in `MB`-sized chunks -/

/-- `MB = 1048576`. -/
def MB : Nat := 1048576

/-- The state of a `hashlib.md5()` object, modelled by its stream semantics:
`update` appends bytes, the final hex digest is a pure function of every byte
fed in (the finalizer is the `md5hex` component of the environment). -/
structure MD5 where
  fed : List Nat
deriving DecidableEq

/-- `h.update(data)`. -/
def MD5.update (h : MD5) (chunk : List Nat) : MD5 := ⟨h.fed ++ chunk⟩

/-- The `while data:` loop of `get_digest`: read up to `MB` bytes, feed them,
repeat until the read comes back empty.  `fuel = length + 1` suffices since
each iteration drops `MB ≥ 1` bytes from a non-empty rest. -/
def get_digest_loop : Nat → MD5 → List Nat → MD5
  | 0, h, _ => h
  | fuel + 1, h, rest =>
    let data := rest.take MB
    if data = [] then h
    else get_digest_loop fuel (h.update data) (rest.drop MB)

/-- `get_digest(filename)` with the file's bytes and the MD5 finalizer made
explicit. -/
def get_digest (md5hex : List Nat → String) (fileBytes : List Nat) : String :=
  md5hex (get_digest_loop (fileBytes.length + 1) ⟨[]⟩ fileBytes).fed

/-- `get_digest` as used on a filename in the environment. -/
def Env.digestOf (env : Env) (filename : String) : String :=
  get_digest env.md5hex (env.content filename)

/-! ### Source records -/

/-- `get_py_file_if_possible`: return the `.py` sibling of a `.pyc` when it
exists; the `assert` for other extensions is an error. -/
def get_py_file_if_possible (env : Env) (pyc_name : String) : Except String String :=
  if String.mk (pyc_name.data.reverse.take 3) = "yp." then .ok pyc_name
  else if String.mk (pyc_name.data.reverse.take 4) = "cyp." then
    let non_compiled := String.mk pyc_name.data.dropLast
    if env.fileExists non_compiled then .ok non_compiled else .ok pyc_name
  else .error "AssertionError"

/-- `get_commit_if_possible`: git metadata for the directory containing the
file, `(None, None, None)` when no repository is found (which also covers a
missing gitpython). -/
def get_commit_if_possible (env : Env) (filename : String) :
    Option String × Option String × Option Bool :=
  match env.gitInfo (dirname filename) with
  | some (path, commit, dirty) => (some path, some commit, some dirty)
  | none => (none, none, none)

/-- The `Source` record (`filename, digest, repo, commit, is_dirty`). -/
structure Source where
  filename : String
  digest : String
  repo : Option String
  commit : Option String
  is_dirty : Option Bool
deriving DecidableEq

/-- `Source.__eq__` restricted to two `Source` operands: by filename alone. -/
def sourceEq (a b : Source) : Bool := a.filename = b.filename

/-- `Source.__eq__` against a string operand (the `basestring` branch). -/
def sourceEqStr (a : Source) (s : String) : Bool := a.filename = s

/-- `Source.__le__`: by filename alone. -/
def sourceLe (a b : Source) : Bool := a.filename ≤ b.filename

/-- `hash(source)` = `hash(source.filename)`. -/
def sourceHash (a : Source) : UInt64 := hash a.filename

/-- `set.add` on a set of `Source` values: a no-op when an equal element
(equality by filename) is already present. -/
def setAddSource (xs : List Source) (s : Source) : List Source :=
  if xs.any (fun t => sourceEq t s) then xs else xs ++ [s]

/-- `Source.create`: reject an empty or non-existing filename, resolve the
absolute path to its `.py` companion, read + hash + git-probe. -/
def Source.create (env : Env) (filename : String) : Except String Source :=
  if filename = "" ∨ ¬ env.fileExists filename then
    .error ("invalid filename or file not found \x22" ++ filename ++ "\x22")
  else do
    let main_file ← get_py_file_if_possible env (abspath env.cwd filename)
    let info := get_commit_if_possible env main_file
    .ok ⟨main_file, env.digestOf main_file, info.1, info.2.1, info.2.2⟩

/-- `Source.create` on a value that may be Python's `None` (the
`if not filename` test is falsy both for `None` and for `""`; `str.format`
renders `None` as the text `None`). -/
def Source.createPy (env : Env) (filename : Option String) : Except String Source :=
  match filename with
  | none => .error "invalid filename or file not found \x22None\x22"
  | some f => Source.create env f

/-! ### PackageDependency records -/

/-- The `PackageDependency` record. -/
structure PackageDependency where
  name : String
  version : Option String
deriving DecidableEq

/-- `PackageDependency.__eq__`: by name alone. -/
def depEq (a b : PackageDependency) : Bool := a.name = b.name

/-- `set.add` on a set of `PackageDependency` values: a no-op when an equal
element (equality by name) is already present. -/
def setAddDep (xs : List PackageDependency) (d : PackageDependency) :
    List PackageDependency :=
  if xs.any (fun t => depEq t d) then xs else xs ++ [d]

/-- `PackageDependency.create(mod)`: `mod.__name__` (whose absence raises
`AttributeError`) plus the version heuristic. -/
def PackageDependency.create (mod : PyModule) : Except String PackageDependency :=
  match mod.name with
  | none => .error "AttributeError"
  | some nm => .ok ⟨nm, get_version_heuristic mod⟩

/-! ### Local-source classification -/

/-- `convert_path_to_module_parts`: drop a trailing `__init__.py[c]`
component, otherwise strip the extension from the final component. -/
def convert_path_to_module_parts (path : String) : List String :=
  let module_parts := splitall path
  if module_parts.getLast?.getD "" = "__init__.py" ∨
     module_parts.getLast?.getD "" = "__init__.pyc" then
    module_parts.dropLast
  else
    module_parts.dropLast ++ [(pySplitext (module_parts.getLast?.getD "")).1]

/-- Modelled from the spec: `is_subdir` lives in `sacred/utils.py`, which is
not among the sources; the spec only says `isLocalSource` "returns false
immediately if `filename` is not underneath `basePath`".  "Underneath" is
modelled as: the absolutized base path followed by a separator is a prefix of
the absolutized filename followed by a separator. -/
def is_subdir (cwd path directory : String) : Bool :=
  ((abspath cwd directory).data ++ ['/']).isPrefixOf ((abspath cwd path).data ++ ['/'])

/-- `is_local_source(filename, modname, experiment_path)`: the three-tier
decision (under-base check; exact relative-parts match; length cut-off; then
the pairwise comparison of the reversed absolute parts with the reversed
dotted-name parts). -/
def is_local_source (cwd filename modname experiment_path : String) : Bool :=
  if ¬ is_subdir cwd filename experiment_path then false
  else
    let rel_path := relpath cwd filename experiment_path
    let path_parts := convert_path_to_module_parts rel_path
    let mod_parts := splitDots modname
    if path_parts = mod_parts then true
    else if mod_parts.length < path_parts.length then false
    else
      let abs_path_parts := convert_path_to_module_parts (abspath cwd filename)
      (abs_path_parts.reverse.zip mod_parts.reverse).all (fun pm => pm.1 = pm.2)

/-! ### Registry scanners -/

/-- A value bound in the scanned namespace, as `iterate_imported_modules`
distinguishes them: a module (whose `__name__` every real module carries), an
object with a `__module__` attribute (the empty string standing for any falsy
value, skipped alike), or anything else. -/
inductive GlobVal where
  | pymod (name : String) (m : PyModule)
  | obj (module_attr : String)
  | plain
deriving DecidableEq

/-- The namespace handed to the orchestrator: its `__file__` entry and the
values scanned by `iterate_imported_modules`. -/
structure Globs where
  file : Option String
  vals : List GlobVal
deriving DecidableEq

/-- Modelled from the spec: `iter_prefixes` lives in `sacred/utils.py`, which
is not among the sources; the spec says to "walk all dotted-name prefixes of
its originating module path (e.g. for `a.b.c` also consider `a.b` and `a`)".
Modelled as the ascending chain of dot-joined component prefixes. -/
def iter_prefixes (path : String) : List String :=
  let comps := splitDots path
  (List.range comps.length).map (fun i => joinDots (comps.take (i + 1)))

/-- `MODULE_BLACKLIST` (minus its `None` member, which can never equal a
module-name string): the five literal names plus `sys.builtin_module_names`. -/
def blacklist (env : Env) : List String :=
  ["__future__", "__main__", "hashlib", "os", "re"] ++ env.builtinNames

/-- `sys.modules.get(modname)`. -/
def sysGet (env : Env) (modname : String) : Option (Option PyModule) :=
  env.sysModules.lookup modname

/-- The inner `for modname in iter_prefixes(mod_path)` loop of
`iterate_imported_modules`, threading the memoizing `checked_modules` set. -/
def importedInner (env : Env) : List String → List String →
    List String × List (String × PyModule)
  | checked, [] => (checked, [])
  | checked, modname :: rest =>
    if checked.contains modname then importedInner env checked rest
    else
      let checked' := modname :: checked
      match sysGet env modname with
      | some (some mod) =>
        let (c, out) := importedInner env checked' rest
        (c, (modname, mod) :: out)
      | _ => importedInner env checked' rest

/-- The outer loop of `iterate_imported_modules` over the namespace values. -/
def importedOuter (env : Env) : List String → List GlobVal →
    List (String × PyModule)
  | _, [] => []
  | checked, glob :: rest =>
    let modPath? : Option String :=
      match glob with
      | .pymod name _ => some name
      | .obj mp => some mp
      | .plain => none
    match modPath? with
    | none => importedOuter env checked rest
    | some mod_path =>
      if mod_path = "" then importedOuter env checked rest
      else
        let (checked', out) := importedInner env checked (iter_prefixes mod_path)
        out ++ importedOuter env checked' rest

/-- `iterate_imported_modules(globs)`. -/
def iterate_imported_modules (env : Env) (globs : Globs) :
    List (String × PyModule) :=
  importedOuter env (blacklist env) globs.vals

/-- `iterate_sys_modules()`: every loaded module outside the blacklist. -/
def iterate_sys_modules (env : Env) : List (String × PyModule) :=
  env.sysModules.filterMap (fun p =>
    match p.2 with
    | some m => if (blacklist env).contains p.1 then none else some (p.1, m)
    | none => none)

/-- Python's substring test `needle in hay`. -/
def containsSeg (needle : Chars) : Chars → Bool
  | [] => needle.isPrefixOf []
  | c :: rest => needle.isPrefixOf (c :: rest) || containsSeg needle rest

/-- `iterate_all_python_files(base_path)`: walk the tree, skip bytecode-cache
directories, join `base_path`, the walk directory and the filename. -/
def iterate_all_python_files (env : Env) (base_path : String) : List String :=
  (env.walk base_path).flatMap (fun de =>
    if containsSeg "__pycache__".data de.1.data then []
    else de.2.filterMap (fun filename =>
      if String.mk (filename.data.reverse.take 3) = "yp." then
        some (joinP (joinP base_path de.1) filename)
      else none))

/-! ### Classifiers -/

/-- The loop of `get_sources_from_modules`: keep modules with a `__file__`
whose absolutized path is not yet collected and is local, creating a `Source`
for each (a failing `Source.create` propagates). -/
def sourcesGo (env : Env) (base_path : String) :
    List Source → List (String × PyModule) → Except String (List Source)
  | sources, [] => .ok sources
  | sources, (modname, mod) :: rest =>
    match mod.file with
    | none => sourcesGo env base_path sources rest
    | some f =>
      let filename := abspath env.cwd f
      if (¬ sources.any (fun s => sourceEqStr s filename)) ∧
          is_local_source env.cwd filename modname base_path then
        match Source.create env filename with
        | .error e => .error e
        | .ok s => sourcesGo env base_path (setAddSource sources s) rest
      else sourcesGo env base_path sources rest

/-- `get_sources_from_modules(module_iterator, base_path)`. -/
def get_sources_from_modules (env : Env) (it : List (String × PyModule))
    (base_path : String) : Except String (List Source) :=
  sourcesGo env base_path [] it

/-- The early-exit local test of `get_dependencies_from_modules`:
`hasattr(mod, '__file__') and is_local_source(abspath(mod.__file__), ...)`. -/
def classifiedLocal (env : Env) (base_path modname : String) (mod : PyModule) : Bool :=
  match mod.file with
  | some f => is_local_source env.cwd (abspath env.cwd f) modname base_path
  | none => false

/-- The loop of `get_dependencies_from_modules`: skip local modules, derive a
`PackageDependency` (an `AttributeError` skips the module), keep it only when
the name has no dot or a version was found. -/
def depsGo (env : Env) (base_path : String) :
    List PackageDependency → List (String × PyModule) → List PackageDependency
  | deps, [] => deps
  | deps, (modname, mod) :: rest =>
    if classifiedLocal env base_path modname mod then depsGo env base_path deps rest
    else
      match PackageDependency.create mod with
      | .error _ => depsGo env base_path deps rest
      | .ok pdep =>
        if (¬ pdep.name.data.contains '.') ∨ pdep.version ≠ none then
          depsGo env base_path (setAddDep deps pdep) rest
        else depsGo env base_path deps rest

/-- `get_dependencies_from_modules(module_iterator, base_path)`. -/
def get_dependencies_from_modules (env : Env) (it : List (String × PyModule))
    (base_path : String) : List PackageDependency :=
  depsGo env base_path [] it

/-- `get_sources_from_local_dir`: a `Source` per discovered file (the set
comprehension deduplicates by filename as it accumulates). -/
def get_sources_from_local_dir (env : Env) (_globs : Globs) (base_path : String) :
    Except String (List Source) :=
  (iterate_all_python_files env base_path).foldlM
    (fun acc filename => do
      let s ← Source.create env filename
      pure (setAddSource acc s)) []

/-- `get_dependencies_from_pkg`: the installed-distribution registry verbatim. -/
def get_dependencies_from_pkg (env : Env) (_globs : Globs) (_base_path : String) :
    List PackageDependency :=
  env.workingSet.foldl (fun acc kv => setAddDep acc ⟨kv.1, some kv.2⟩) []

/-! ### Strategy tables and the orchestrator -/

/-- `source_discovery_strategies`, a `none` result modelling the `KeyError`
raised on an unknown strategy name. -/
def source_discovery_strategies (env : Env) (key : String) :
    Option (Globs → String → Except String (List Source)) :=
  if key = "none" then some (fun _ _ => .ok [])
  else if key = "imported" then
    some (fun globs path => get_sources_from_modules env (iterate_imported_modules env globs) path)
  else if key = "sys" then
    some (fun _ path => get_sources_from_modules env (iterate_sys_modules env) path)
  else if key = "dir" then
    some (fun globs path => get_sources_from_local_dir env globs path)
  else none

/-- `dependency_discovery_strategies`. -/
def dependency_discovery_strategies (env : Env) (key : String) :
    Option (Globs → String → List PackageDependency) :=
  if key = "none" then some (fun _ _ => [])
  else if key = "imported" then
    some (fun globs path => get_dependencies_from_modules env (iterate_imported_modules env globs) path)
  else if key = "sys" then
    some (fun _ path => get_dependencies_from_modules env (iterate_sys_modules env) path)
  else if key = "pkg" then
    some (fun globs path => get_dependencies_from_pkg env globs path)
  else none

/-- `get_main_file(globs)`: the namespace's `__file__` resolved to a `Source`
and its directory, else the current directory and no main file. -/
def get_main_file (env : Env) (globs : Globs) :
    Except String (String × Option Source) :=
  match globs.file with
  | none => .ok (abspath env.cwd ".", none)
  | some f =>
    match Source.create env f with
    | .error e => .error e
    | .ok main => .ok (dirname main.filename, some main)

/-- `Source.__eq__` lifted to the elements of the `sources` set after
`sources.add(main)`, whose elements are `Source` records or Python's `None`:
`None` equals only `None`, records compare by filename. -/
def optSourceEq (a b : Option Source) : Bool :=
  match a, b with
  | none, none => true
  | some s, some t => sourceEq s t
  | _, _ => false

/-- `set.add` on the main-file-augmented sources set. -/
def setAddOptSource (xs : List (Option Source)) (m : Option Source) :
    List (Option Source) :=
  if xs.any (fun t => optSourceEq t m) then xs else xs ++ [m]

/-- `gather_sources_and_dependencies(globs)` with the two strategy settings
made explicit.  Returns `(main, sources, dependencies)`; the sources set may
contain Python's `None` (when the namespace has no `__file__`), hence its
element type. -/
def gather_sources_and_dependencies (env : Env) (skey dkey : String)
    (globs : Globs) :
    Except String (Option Source × List (Option Source) × List PackageDependency) :=
  match get_main_file env globs with
  | .error e => .error e
  | .ok pm =>
    match source_discovery_strategies env skey with
    | none => .error "KeyError"
    | some gather_sources =>
      match gather_sources globs pm.1 with
      | .error e => .error e
      | .ok sources =>
        match dependency_discovery_strategies env dkey with
        | none => .error "KeyError"
        | some gather_dependencies =>
          if env.hasNumpy then
            match PackageDependency.create env.numpyModule with
            | .error e => .error e
            | .ok np =>
              .ok (pm.2, setAddOptSource (sources.map some) pm.2,
                   setAddDep (gather_dependencies globs pm.1) np)
          else
            .ok (pm.2, setAddOptSource (sources.map some) pm.2,
                 gather_dependencies globs pm.1)

/-! ### Spec-side decision procedures (stated from the specification's words,
to be proved equivalent to the embedded code) and per-pair classification
predicates used to state the invariants. -/

/-- The specification's description of the version probe: an ordered list of
attribute names, "accept the first one whose value is a string or tuple
matching" the grammar, "returning `None` when no attribute qualifies". -/
def versionProbeSpec (mod : PyModule) : Option String :=
  ["__version__", "VERSION", "version"].findSome?
    (fun a => (lookupAttr mod a).bind probeAttr)

/-- The specification's three-tier description of `is_local_source`; it
differs from the code only in the last tier, which it words as: "the dotted
name's components equal the trailing components of the absolute path's
module-part decomposition", i.e. a suffix test. -/
def is_local_source_spec (cwd filename modname experiment_path : String) : Bool :=
  if ¬ is_subdir cwd filename experiment_path then false
  else
    let path_parts := convert_path_to_module_parts (relpath cwd filename experiment_path)
    let mod_parts := splitDots modname
    if path_parts = mod_parts then true
    else if mod_parts.length < path_parts.length then false
    else mod_parts.isSuffixOf (convert_path_to_module_parts (abspath cwd filename))

/-- Whether the dependency loop accepts the pair: not local, a readable
`__name__`, and either an undotted name or a found version. -/
def depAccepted (env : Env) (base_path modname : String) (mod : PyModule) : Bool :=
  if classifiedLocal env base_path modname mod then false
  else
    match mod.name with
    | none => false
    | some nm => (¬ nm.data.contains '.') ∨ (get_version_heuristic mod).isSome

/-- The dependency loop's keep-condition on a derived dependency, as a
boolean: an undotted module name, or a version found by the heuristic. -/
def depCond (nm : String) (mod : PyModule) : Bool :=
  !(nm.data.contains '.') || (get_version_heuristic mod).isSome

/-! ### Concrete fixtures used by witnesses and counterexamples -/

/-- A minimal concrete environment: empty filesystem, no git, no registries. -/
def env0 : Env where
  cwd := "/cwd"
  fileExists := fun _ => false
  content := fun _ => []
  md5hex := fun bs => joinDots (bs.map (fun b => String.mk (Nat.toDigits 10 b)))
  gitInfo := fun _ => none
  sysModules := []
  builtinNames := []
  walk := fun _ => []
  workingSet := []
  hasNumpy := false
  numpyModule := ⟨none, some "numpy", [("__version__", .str "1.2.3")]⟩

/-- A namespace with no `__file__` entry and no values. -/
def globs0 : Globs := ⟨none, []⟩

/-- A module with a dotted name and no version information: it is neither a
local source (no `__file__`) nor an accepted dependency (dotted, versionless). -/
def modDotted : PyModule := ⟨none, some "a.b", []⟩

/-- A module that classifies as local source under base path `/exp`. -/
def modLocal : PyModule := ⟨some "/exp/foo.py", some "foo", []⟩

/-- Two `Source` records for one filename with different digests and
version-control state. -/
def srcA : Source := ⟨"/exp/a.py", "d1", none, none, none⟩

/-- See `srcA`. -/
def srcB : Source := ⟨"/exp/a.py", "d2", some "git:/r", some "c0ffee", some true⟩

end Sacred

-- sanity checks of the posixpath embedding against CPython behaviour
example : Sacred.splitall "pkg/sub/__init__.py" = ["pkg", "sub", "__init__.py"] := by decide
example : Sacred.splitall "/exp/foo/bar.py" = ["/", "exp", "foo", "bar.py"] := by decide
example : Sacred.splitall "" = [""] := by decide
example : Sacred.splitall "/" = ["/"] := by decide
example : Sacred.splitall "//a" = ["//", "a"] := by decide
example : Sacred.splitall "a//b" = ["a", "b"] := by decide
example : Sacred.pySplitext "..py" = ("..py", "") := by decide
example : Sacred.pySplitext ".py" = (".py", "") := by decide
example : Sacred.pySplitext "a.tar.gz" = ("a.tar", ".gz") := by decide
example : Sacred.pySplitext "/" = ("/", "") := by decide
example : Sacred.pySplitext "bar.py" = ("bar", ".py") := by decide
example : Sacred.normpath "/cwd/." = "/cwd" := by decide
example : Sacred.normpath "//a/b/../c" = "//a/c" := by decide
example : Sacred.normpath "" = "." := by decide
example : Sacred.normpath "a/.." = "." := by decide
example : Sacred.relpath "/cwd" "/exp/foo/bar.py" "/exp" = "foo/bar.py" := by decide
example : Sacred.joinP (Sacred.joinP "/a" "b") "c.py" = "/a/b/c.py" := by decide
example : Sacred.joinP "" "x" = "x" := by decide
example : Sacred.joinP "/a/" "b" = "/a/b" := by decide
example : Sacred.abspath "/cwd" "." = "/cwd" := by decide
example : Sacred.dirname "/exp/foo/bar.py" = "/exp/foo" := by decide

-- sanity checks of the PEP440 recognizer against Python's re on the source pattern
example : Sacred.pep440Match "1.2.3" = true := by decide
example : Sacred.pep440Match "not-a-version" = false := by decide
example : Sacred.pep440Match "1c1" = true := by decide
example : Sacred.pep440Match "1rc1" = true := by decide
example : Sacred.pep440Match "1..2" = true := by decide
example : Sacred.pep440Match "1." = false := by decide
example : Sacred.pep440Match "1!2" = true := by decide
example : Sacred.pep440Match "!1" = false := by decide
example : Sacred.pep440Match "1.2.3\n" = true := by decide
example : Sacred.pep440Match "1.dev2" = true := by decide
example : Sacred.pep440Match "1.post5.dev2" = true := by decide
example : Sacred.pep440Match "1a" = false := by decide
example : Sacred.pep440Match "1.2a34" = true := by decide
example : Sacred.pep440Match "..1" = false := by decide
example : Sacred.pep440Match "1.2rc3.post4.dev5" = true := by decide
example : Sacred.pep440Match "0!0" = true := by decide
example : Sacred.pep440Match "1.2.3\n\n" = false := by decide
example : Sacred.pep440Match "1x2" = false := by decide
example : Sacred.pep440Match "1.2.post1" = true := by decide
example : Sacred.pep440Match "1post1" = false := by decide
example : Sacred.get_version_heuristic ⟨none, none, [("__version__", .str "not-a-version")]⟩ = none := by decide
example : Sacred.get_version_heuristic ⟨none, none, [("__version__", .tup ["1", "2", "3"])]⟩ = some "1.2.3" := by decide

-- sanity checks of the classifier
example : Sacred.is_local_source "/cwd" "/exp/foo/bar.py" "foo.bar" "/exp" = true := by decide
example : Sacred.is_local_source "/cwd" "/other/bar.py" "foo.bar" "/exp" = false := by decide
example : Sacred.is_local_source "/cwd" "/exp/foo/bar/baz.py" "foo.bar" "/exp" = false := by decide
example : Sacred.is_local_source "/cwd" "/exp/pkg/__init__.py" "pkg" "/exp" = true := by decide
example : Sacred.convert_path_to_module_parts "pkg/sub/__init__.py" = ["pkg", "sub"] := by decide
example : Sacred.convert_path_to_module_parts "foo/bar.py" = ["foo", "bar"] := by decide
-- the namespace-package suffix tier
example : Sacred.is_local_source "/cwd" "/exp/sub/mod.py" "sub.mod" "/exp/other/.." = true := by decide
example : Sacred.is_local_source "/cwd" "/exp/mod.py" "exp.mod" "/exp" = true := by decide
example : Sacred.is_local_source "/cwd" "/exp/mod.py" "other.mod" "/exp" = false := by decide

namespace Sacred

/-! ## Supporting lemmas -/

theorem get_digest_loop_fed : ∀ (fuel : Nat) (rest : List Nat) (h : MD5),
    rest.length < fuel → (get_digest_loop fuel h rest).fed = h.fed ++ rest := by
  intro fuel
  induction fuel with
  | zero => intro rest h hl; exact absurd hl (Nat.not_lt_zero _)
  | succ n ih =>
    intro rest h hl
    by_cases hr : rest = []
    · subst hr; simp [get_digest_loop]
    · have htake : ¬ rest.take MB = [] := by
        simp only [List.take_eq_nil_iff]
        push_neg
        exact ⟨by decide, hr⟩
      have hMB : MB = 1048576 := rfl
      have hlen : (rest.drop MB).length < n := by
        have h1 : rest.length ≠ 0 := fun hz => hr (List.length_eq_zero.mp hz)
        simp only [List.length_drop]
        omega
      show (if rest.take MB = [] then h
            else get_digest_loop n (h.update (rest.take MB)) (rest.drop MB)).fed =
          h.fed ++ rest
      rw [if_neg htake, ih _ _ hlen]
      simp [MD5.update, List.append_assoc]

theorem get_digest_eq (md5hex : List Nat → String) (fileBytes : List Nat) :
    get_digest md5hex fileBytes = md5hex fileBytes := by
  unfold get_digest
  rw [get_digest_loop_fed _ _ _ (Nat.lt_succ_self _)]
  rfl

theorem versionProbeLoop_eq_findSome (mod : PyModule) :
    ∀ l : List String, versionProbeLoop mod l =
      l.findSome? (fun a => (lookupAttr mod a).bind probeAttr) := by
  intro l
  induction l with
  | nil => rfl
  | cons a rest ih =>
    simp only [versionProbeLoop, List.findSome?_cons]
    cases h : lookupAttr mod a with
    | none => simpa using ih
    | some v =>
      cases hp : probeAttr v with
      | none => simpa [hp] using ih
      | some s => simp [hp]

/-! ## Claim theorems -/

/-- C5: for all `Source` values, equality holds iff the filenames are equal,
the hash depends only on the filename, two records with the same filename
collapse to a single set element even when digest / repo / commit / dirty
differ, and ordering is by filename alone. -/
theorem c5_source_identity :
    (∀ s₁ s₂ : Source, sourceEq s₁ s₂ = true ↔ s₁.filename = s₂.filename) ∧
    (∀ s₁ s₂ : Source, s₁.filename = s₂.filename → sourceHash s₁ = sourceHash s₂) ∧
    (∀ s₁ s₂ : Source, s₁.filename = s₂.filename → setAddSource [s₁] s₂ = [s₁]) ∧
    (∀ s₁ s₂ : Source, sourceLe s₁ s₂ = true ↔ s₁.filename ≤ s₂.filename) := by
  refine ⟨fun s₁ s₂ => ?_, fun s₁ s₂ h => ?_, fun s₁ s₂ h => ?_, fun s₁ s₂ => ?_⟩
  · simp [sourceEq]
  · simp [sourceHash, h]
  · simp [setAddSource, sourceEq, h]
  · simp [sourceLe]

/-- Witness for C5: two records for `/exp/a.py` differing in digest and
git state hash alike and collapse in a set. -/
theorem c5_source_identity_witness :
    sourceHash srcA = sourceHash srcB ∧ setAddSource [srcA] srcB = [srcA] :=
  ⟨c5_source_identity.2.1 srcA srcB rfl, c5_source_identity.2.2.1 srcA srcB rfl⟩

/-- C8: `get_digest` feeds the file to the hash in 1 MiB chunks and its
result equals the hash of the whole byte content in a single pass, for any
finalizer; in particular the digest is a function of the content alone, so
hashing the same unchanged file twice yields the same digest. -/
theorem c8_digest_chunked_eq_single_pass :
    (∀ (md5hex : List Nat → String) (fileBytes : List Nat),
        get_digest md5hex fileBytes = md5hex fileBytes) ∧
    (∀ (env : Env) (filename : String),
        env.digestOf filename = env.md5hex (env.content filename)) :=
  ⟨get_digest_eq, fun _ _ => get_digest_eq _ _⟩

/-- C7: a path whose final `splitall` component is `__init__.py` or
`__init__.pyc` is converted by dropping exactly that component; any other
path is converted by stripping the extension from the final component. -/
theorem c7_convert_path_strips_init :
    (∀ (path last : String), (splitall path).getLast? = some last →
      convert_path_to_module_parts path =
        if last = "__init__.py" ∨ last = "__init__.pyc"
        then (splitall path).dropLast
        else (splitall path).dropLast ++ [(pySplitext last).1]) ∧
    convert_path_to_module_parts "pkg/sub/__init__.py" = ["pkg", "sub"] ∧
    convert_path_to_module_parts "foo/bar.py" = ["foo", "bar"] := by
  refine ⟨fun path last h => ?_, by decide, by decide⟩
  unfold convert_path_to_module_parts
  simp [h]

/-- Witness for C7 at the non-package path `a/b.py`. -/
theorem c7_convert_path_strips_init_witness :
    (splitall "a/b.py").getLast? = some "b.py" ∧
    convert_path_to_module_parts "a/b.py" =
      (if ("b.py" : String) = "__init__.py" ∨ ("b.py" : String) = "__init__.pyc"
       then (splitall "a/b.py").dropLast
       else (splitall "a/b.py").dropLast ++ [(pySplitext "b.py").1]) :=
  ⟨by decide, c7_convert_path_strips_init.1 "a/b.py" "b.py" (by decide)⟩

/-- C3: the version heuristic probes `__version__`, `VERSION`, `version` in
that order and returns the first string (or dot-joined tuple) matching the
release-version pattern, skipping values that fail the grammar; it returns
`None` for `__version__ = "not-a-version"` and `"1.2.3"` for
`__version__ = (1, 2, 3)`. -/
theorem c3_version_heuristic_first_match :
    (∀ mod : PyModule, get_version_heuristic mod = versionProbeSpec mod) ∧
    get_version_heuristic ⟨none, none, [("__version__", .str "not-a-version")]⟩ = none ∧
    get_version_heuristic ⟨none, none, [("__version__", .tup ["1", "2", "3"])]⟩ = some "1.2.3" ∧
    get_version_heuristic
      ⟨none, none, [("__version__", .str "nope"), ("VERSION", .str "2.0")]⟩ = some "2.0" :=
  ⟨fun mod => versionProbeLoop_eq_findSome mod _, by decide, by decide, by decide⟩

end Sacred

namespace Sacred

/-! ## Substring and set-add lemmas -/

theorem isPrefixOf_self_append : ∀ (l t : Chars), l.isPrefixOf (l ++ t) = true := by
  intro l t
  induction l with
  | nil => simp
  | cons a as ih => simp [List.isPrefixOf, ih]

theorem containsSeg_of_isPrefixOf (needle hay : Chars)
    (h : needle.isPrefixOf hay = true) : containsSeg needle hay = true := by
  cases hay with
  | nil => simpa [containsSeg] using h
  | cons c rest => simp [containsSeg, h]

theorem containsSeg_sandwich (pre needle suf : Chars) :
    containsSeg needle (pre ++ needle ++ suf) = true := by
  induction pre with
  | nil => simpa using containsSeg_of_isPrefixOf needle (needle ++ suf) (isPrefixOf_self_append needle suf)
  | cons c cs ih =>
    simp only [List.cons_append, containsSeg, Bool.or_eq_true]
    right
    simpa [List.append_assoc] using ih

theorem optSourceEq_refl (m : Option Source) : optSourceEq m m = true := by
  cases m <;> simp [optSourceEq, sourceEq]

theorem setAddOptSource_map_some_none (xs : List Source) :
    setAddOptSource (xs.map some) none = xs.map some ++ [none] := by
  unfold setAddOptSource
  rw [if_neg]
  simp only [List.any_eq_true, List.mem_map]
  rintro ⟨t, ⟨s, _, rfl⟩, hEq⟩
  simp [optSourceEq] at hEq

theorem exists_mem_setAddOptSource (xs : List (Option Source)) (m : Option Source) :
    ∃ t ∈ setAddOptSource xs m, optSourceEq t m = true := by
  unfold setAddOptSource
  by_cases h : xs.any (fun t => optSourceEq t m) = true
  · rw [if_pos h]
    exact List.any_eq_true.mp h
  · rw [if_neg h]
    exact ⟨m, by simp, optSourceEq_refl m⟩

/-- Every successful run of the orchestrator decomposes into a main-file
lookup, a source strategy run, and the `sources.add(main)` step. -/
theorem gather_ok_shape (env : Env) (skey dkey : String) (globs : Globs)
    (main : Option Source) (sources : List (Option Source))
    (deps : List PackageDependency)
    (h : gather_sources_and_dependencies env skey dkey globs =
      .ok (main, sources, deps)) :
    ∃ pm strat xs, get_main_file env globs = .ok pm ∧
      source_discovery_strategies env skey = some strat ∧
      strat globs pm.1 = .ok xs ∧
      main = pm.2 ∧ sources = setAddOptSource (xs.map some) pm.2 := by
  unfold gather_sources_and_dependencies at h
  split at h
  next e heq => exact absurd h (by simp)
  next pm heq =>
  split at h
  next => exact absurd h (by simp)
  next strat heq2 =>
  split at h
  next e heq3 => exact absurd h (by simp)
  next xs heq3 =>
  split at h
  next => exact absurd h (by simp)
  next dstrat heq4 =>
  refine ⟨pm, strat, xs, heq, heq2, heq3, ?_⟩
  split at h
  · split at h
    next e heq5 => exact absurd h (by simp)
    next np heq5 =>
      simp only [Except.ok.injEq, Prod.mk.injEq] at h
      exact ⟨h.1.symm, h.2.1.symm⟩
  · simp only [Except.ok.injEq, Prod.mk.injEq] at h
    exact ⟨h.1.symm, h.2.1.symm⟩

/-! ## Claim theorems (error handling and the orchestrator) -/

/-- C9: `Source.create` on a `None`, empty, or non-existing filename fails
with a `ValueError` whose message contains the offending path; no `Source`
is returned. -/
theorem c9_create_invalid_fails_fast :
    ∀ (env : Env) (f : Option String),
      (f = none ∨ ∃ s, f = some s ∧ (s = "" ∨ env.fileExists s = false)) →
      ∃ msg, Source.createPy env f = .error msg ∧
        containsSeg (match f with | none => "None".data | some s => s.data)
          msg.data = true ∧
        ∀ src, ¬ Source.createPy env f = .ok src := by
  intro env f hf
  rcases hf with h | ⟨s, hfs, hbad⟩
  · subst h
    refine ⟨_, rfl, by decide, ?_⟩
    intro src hc
    exact Except.noConfusion hc
  · subst hfs
    have hcond : s = "" ∨ ¬ env.fileExists s = true := by
      rcases hbad with h | h
      · exact Or.inl h
      · exact Or.inr (by simp [h])
    have herr : Source.createPy env (some s) =
        .error ("invalid filename or file not found \x22" ++ s ++ "\x22") := by
      show Source.create env s = _
      unfold Source.create
      rw [if_pos hcond]
    refine ⟨_, herr, ?_, ?_⟩
    · have : ("invalid filename or file not found \x22" ++ s ++ "\x22").data =
          ("invalid filename or file not found \x22").data ++ s.data ++ ("\x22").data := by
        simp
      rw [this]
      exact containsSeg_sandwich _ _ _
    · intro src hc
      rw [herr] at hc
      exact Except.noConfusion hc

/-- Witness for C9 at a non-existing file in the empty environment. -/
theorem c9_create_invalid_fails_fast_witness :
    ∃ msg, Source.createPy env0 (some "/missing.py") = .error msg ∧
      containsSeg "/missing.py".data msg.data = true ∧
      ∀ src, ¬ Source.createPy env0 (some "/missing.py") = .ok src := by
  have h := c9_create_invalid_fails_fast env0 (some "/missing.py")
    (Or.inr ⟨"/missing.py", rfl, Or.inr rfl⟩)
  simpa using h

/-- C10: when the namespace carries no `__file__`, the orchestrator returns
`main = None` and a sources set containing the element `None` — the
unconditional `sources.add(main)` is not guarded, so the result is not a set
of `Source` records only. -/
theorem c10_no_main_file_adds_none :
    ∀ (env : Env) (globs : Globs) (skey dkey : String)
      (main : Option Source) (sources : List (Option Source))
      (deps : List PackageDependency),
      globs.file = none →
      gather_sources_and_dependencies env skey dkey globs = .ok (main, sources, deps) →
      main = none ∧ none ∈ sources ∧ ¬ ∀ x ∈ sources, x.isSome = true := by
  intro env globs skey dkey main sources deps hfile h
  obtain ⟨pm, strat, xs, hmf, _, _, hmain, hsources⟩ :=
    gather_ok_shape env skey dkey globs main sources deps h
  have hpm : pm = (abspath env.cwd ".", none) := by
    simp only [get_main_file, hfile, Except.ok.injEq] at hmf
    exact hmf.symm
  have hmain' : main = none := by rw [hmain, hpm]
  have hmem : none ∈ sources := by
    rw [hsources, hpm]
    simp [setAddOptSource_map_some_none]
  refine ⟨hmain', hmem, fun hall => ?_⟩
  have := hall none hmem
  simp at this

/-- Witness for C10: the empty namespace under the `none`/`none` strategies. -/
theorem c10_no_main_file_adds_none_witness :
    (none : Option Source) = none ∧ none ∈ [(none : Option Source)] ∧
      ¬ ∀ x ∈ [(none : Option Source)], x.isSome = true :=
  c10_no_main_file_adds_none env0 globs0 "none" "none" none [none] [] rfl rfl

/-- C4: every successful orchestrator run adds the main file's `Source` to
the returned sources set (membership under the set's own equality), and under
the `none` source strategy the returned set is exactly `{main}`. -/
theorem c4_main_source_always_added :
    ∀ (env : Env) (skey dkey : String) (globs : Globs)
      (main : Option Source) (sources : List (Option Source))
      (deps : List PackageDependency),
      gather_sources_and_dependencies env skey dkey globs = .ok (main, sources, deps) →
      (∃ t ∈ sources, optSourceEq t main = true) ∧
      (skey = "none" → sources = [main]) := by
  intro env skey dkey globs main sources deps h
  obtain ⟨pm, strat, xs, _, hs, hsr, hmain, hsources⟩ :=
    gather_ok_shape env skey dkey globs main sources deps h
  constructor
  · rw [hsources, hmain]
    exact exists_mem_setAddOptSource _ _
  · intro hk
    subst hk
    have hstrat : strat = fun _ _ => (.ok [] : Except String (List Source)) := by
      have htab : source_discovery_strategies env "none" =
          some (fun _ _ => (.ok [] : Except String (List Source))) := rfl
      rw [htab] at hs
      exact ((Option.some.injEq _ _).mp hs).symm
    have hxs : xs = [] := by
      rw [hstrat] at hsr
      exact ((Except.ok.injEq _ _).mp hsr).symm
    rw [hsources, hxs, hmain]
    rfl

/-- Witness for C4: under the `none` strategy and an empty namespace the
sources set is exactly the singleton of the (absent) main file. -/
theorem c4_main_source_always_added_witness :
    (∃ t ∈ [(none : Option Source)], optSourceEq t none = true) ∧
      ("none" = "none" → [(none : Option Source)] = [none]) :=
  c4_main_source_always_added env0 "none" "none" globs0 none [none] [] rfl

end Sacred

namespace Sacred

/-! ## Dependency-loop lemmas -/

theorem depCond_iff (nm : String) (mod : PyModule) :
    ((¬ (nm.data.contains '.' = true)) ∨ get_version_heuristic mod ≠ none) ↔
      depCond nm mod = true := by
  simp [depCond, Option.isSome_iff_ne_none]

theorem exists_name_setAddDep (acc : List PackageDependency)
    (d : PackageDependency) (nm : String) :
    (∃ x ∈ setAddDep acc d, x.name = nm) ↔
      ((∃ x ∈ acc, x.name = nm) ∨ d.name = nm) := by
  unfold setAddDep
  by_cases h : acc.any (fun t => depEq t d) = true
  · rw [if_pos h]
    constructor
    · exact Or.inl
    · rintro (hx | hnm)
      · exact hx
      · obtain ⟨t, ht, hteq⟩ := List.any_eq_true.mp h
        refine ⟨t, ht, ?_⟩
        have hname : t.name = d.name := by simpa [depEq] using hteq
        rw [hname, hnm]
  · rw [if_neg h]
    constructor
    · rintro ⟨x, hx, hxnm⟩
      rcases List.mem_append.mp hx with hx | hx
      · exact Or.inl ⟨x, hx, hxnm⟩
      · simp only [List.mem_singleton] at hx
        subst hx
        exact Or.inr hxnm
    · rintro (⟨x, hx, hxnm⟩ | hnm)
      · exact ⟨x, List.mem_append_left _ hx, hxnm⟩
      · exact ⟨d, List.mem_append_right _ (by simp), hnm⟩

/-- A name is among the dependencies accumulated by the loop iff it was
already accumulated or some remaining pair is non-local, readable, and
passes the keep-condition. -/
theorem depsGo_name_mem (env : Env) (bp : String) :
    ∀ (it : List (String × PyModule)) (acc : List PackageDependency) (nm : String),
      (∃ d ∈ depsGo env bp acc it, d.name = nm) ↔
      ((∃ d ∈ acc, d.name = nm) ∨
        ∃ p ∈ it, classifiedLocal env bp p.1 p.2 = false ∧ p.2.name = some nm ∧
          depCond nm p.2 = true) := by
  intro it
  induction it with
  | nil => intro acc nm; simp [depsGo]
  | cons p rest ih =>
    intro acc nm
    obtain ⟨m, mod⟩ := p
    cases hl : classifiedLocal env bp m mod with
    | true =>
      rw [show depsGo env bp acc ((m, mod) :: rest) = depsGo env bp acc rest from
        by simp [depsGo, hl]]
      rw [ih]
      simp [List.exists_mem_cons_iff, hl]
    | false =>
      cases hn : mod.name with
      | none =>
        rw [show depsGo env bp acc ((m, mod) :: rest) = depsGo env bp acc rest from
          by simp [depsGo, hl, PackageDependency.create, hn]]
        rw [ih]
        simp [List.exists_mem_cons_iff, hn]
      | some nm₀ =>
        have hcreate : PackageDependency.create mod =
            .ok ⟨nm₀, get_version_heuristic mod⟩ := by
          simp [PackageDependency.create, hn]
        by_cases hcond : depCond nm₀ mod = true
        · have hmix : ('.' ∉ nm₀.data) ∨ ¬ get_version_heuristic mod = none := by
            simpa [depCond, Option.isSome_iff_ne_none] using hcond
          rw [show depsGo env bp acc ((m, mod) :: rest) =
              depsGo env bp (setAddDep acc ⟨nm₀, get_version_heuristic mod⟩) rest from
            by simp [depsGo, hl, hcreate, hmix]]
          rw [ih, exists_name_setAddDep]
          simp only [List.exists_mem_cons_iff, hl, hn, true_and,
            Option.some.injEq]
          constructor
          · rintro ((ha | hd) | hr)
            · exact Or.inl ha
            · exact Or.inr (Or.inl ⟨hd, hd ▸ hcond⟩)
            · exact Or.inr (Or.inr hr)
          · rintro (ha | (⟨hd, _⟩ | hr))
            · exact Or.inl (Or.inl ha)
            · exact Or.inl (Or.inr hd)
            · exact Or.inr hr
        · simp only [depCond, Bool.or_eq_true, Bool.not_eq_true',
            Option.isSome_iff_ne_none, not_or, Bool.not_eq_false, ne_eq,
            not_not] at hcond
          have hdot : '.' ∈ nm₀.data := by simpa using hcond.1
          rw [show depsGo env bp acc ((m, mod) :: rest) = depsGo env bp acc rest from
            by simp [depsGo, hl, hcreate, hdot, hcond.2]]
          rw [ih]
          simp only [List.exists_mem_cons_iff, hl, hn, true_and, Option.some.injEq]
          constructor
          · rintro (ha | hr)
            · exact Or.inl ha
            · exact Or.inr (Or.inr hr)
          · rintro (ha | (⟨hd, hdc⟩ | hr))
            · exact Or.inl ha
            · subst hd
              rw [depCond] at hdc
              simp only [Bool.or_eq_true, Bool.not_eq_true',
                Option.isSome_iff_ne_none, ne_eq] at hdc
              rcases hdc with hdc | hdc
              · exact absurd hcond.1 (by simpa using hdc)
              · exact absurd hcond.2 hdc
            · exact Or.inr hr

/-! ## Claim theorems (classifier invariants) -/

/-- C2 counterexample: the pair `("a.b", modDotted)` is considered by both
classifier runs over the same iterator and base path, yet it lands in
neither result set — `get_sources_from_modules` returns no source for it
(it has no `__file__`) and `get_dependencies_from_modules` discards it (a
dotted name with no version), refuting "the pair lands in exactly one of
the two result sets". -/
theorem c2_counterexample_neither_set :
    ([("a.b", modDotted)] : List (String × PyModule)) ≠ [] ∧
    get_sources_from_modules env0 [("a.b", modDotted)] "/exp" = .ok [] ∧
    get_dependencies_from_modules env0 [("a.b", modDotted)] "/exp" = [] ∧
    ¬ (classifiedLocal env0 "/exp" "a.b" modDotted = true ∨
       depAccepted env0 "/exp" "a.b" modDotted = true) := by
  refine ⟨by simp, rfl, rfl, ?_⟩
  rintro (h | h) <;> exact absurd h (by decide)

/-- C2 (amended): the two classification sets are mutually exclusive — a
pair classified as local is never counted as a dependency (the dependency
loop's early-exit skips it), and a pair not classified local never
contributes a source — but a considered pair may land in neither set. -/
theorem c2_local_never_dependency :
    (∀ (env : Env) (bp m : String) (mod : PyModule),
        classifiedLocal env bp m mod = true → depAccepted env bp m mod = false) ∧
    (∀ (env : Env) (bp m : String) (mod : PyModule)
        (deps : List PackageDependency) (rest : List (String × PyModule)),
        classifiedLocal env bp m mod = true →
        depsGo env bp deps ((m, mod) :: rest) = depsGo env bp deps rest) ∧
    (∀ (env : Env) (bp m : String) (mod : PyModule)
        (srcs : List Source) (rest : List (String × PyModule)),
        classifiedLocal env bp m mod = false →
        sourcesGo env bp srcs ((m, mod) :: rest) = sourcesGo env bp srcs rest) := by
  refine ⟨fun env bp m mod h => ?_, fun env bp m mod deps rest h => ?_,
    fun env bp m mod srcs rest h => ?_⟩
  · simp [depAccepted, h]
  · simp [depsGo, h]
  · cases hf : mod.file with
    | none => simp [sourcesGo, hf]
    | some f =>
      have hloc : is_local_source env.cwd (abspath env.cwd f) m bp = false := by
        simpa [classifiedLocal, hf] using h
      simp [sourcesGo, hf, hloc]

/-- Witness for the amended C2 at concrete local and non-local pairs. -/
theorem c2_local_never_dependency_witness :
    depAccepted env0 "/exp" "foo" modLocal = false ∧
    depsGo env0 "/exp" [] [("foo", modLocal)] = depsGo env0 "/exp" [] [] ∧
    sourcesGo env0 "/exp" [] [("a.b", modDotted)] = sourcesGo env0 "/exp" [] [] :=
  ⟨c2_local_never_dependency.1 env0 "/exp" "foo" modLocal (by decide),
   c2_local_never_dependency.2.1 env0 "/exp" "foo" modLocal [] [] (by decide),
   c2_local_never_dependency.2.2 env0 "/exp" "a.b" modDotted [] [] (by decide)⟩

/-- C6: a name is among the returned dependencies iff some yielded module
that is not classified as local source carries that `__name__` and either
the version heuristic found a version or the name has no `'.'`; in
particular a versionless dependency with a dotted name is discarded. -/
theorem c6_dependency_kept_iff :
    ∀ (env : Env) (it : List (String × PyModule)) (bp nm : String),
      (∃ d ∈ get_dependencies_from_modules env it bp, d.name = nm) ↔
      (∃ p ∈ it, classifiedLocal env bp p.1 p.2 = false ∧ p.2.name = some nm ∧
        depCond nm p.2 = true) := by
  intro env it bp nm
  unfold get_dependencies_from_modules
  rw [depsGo_name_mem]
  simp

end Sacred

namespace Sacred

/-! ## Structure of `splitall` on absolute paths

For the last classification tier we need that the component list of an
absolute path starts with a root marker (a non-empty run of slashes): the
reversed-zip comparison in `is_local_source` can then never burn through the
root marker against a dotted-name component. -/

theorem posixSplit_abs (cs : Chars) (hcs : cs.head? = some '/') :
    ((posixSplit cs).1 = cs ∧ cs.all (fun c => c = '/') = true) ∨
    ((posixSplit cs).1 ≠ cs ∧ (posixSplit cs).2 ≠ cs ∧
      (posixSplit cs).1.head? = some '/' ∧ (posixSplit cs).1.length < cs.length) := by
  obtain ⟨u, rfl⟩ : ∃ u, cs = '/' :: u := by
    cases cs with
    | nil => simp at hcs
    | cons a t =>
      simp only [List.head?_cons, Option.some.injEq] at hcs
      exact ⟨t, by rw [hcs]⟩
  set cs := '/' :: u with hcsdef
  have hmem : '/' ∈ cs := List.mem_cons_self _ _
  have hmemr : '/' ∈ cs.reverse := by simpa using hmem
  have hdRev_ne : cs.reverse.dropWhile (fun c => c ≠ '/') ≠ [] := by
    intro h
    have h2 := (List.dropWhile_eq_nil_iff).mp h '/' hmemr
    simp at h2
  have hsplit : cs.reverse.takeWhile (fun c => c ≠ '/') ++
      cs.reverse.dropWhile (fun c => c ≠ '/') = cs.reverse :=
    List.takeWhile_append_dropWhile _ _
  have hdRev_last : (cs.reverse.dropWhile (fun c => c ≠ '/')).getLast? = some '/' := by
    have h1 : cs.reverse.getLast? = some '/' := by
      rw [List.getLast?_reverse]
      exact hcs
    rw [← hsplit, List.getLast?_append] at h1
    cases hg : (cs.reverse.dropWhile (fun c => c ≠ '/')).getLast? with
    | none =>
      exact absurd (List.getLast?_eq_none_iff.mp hg) hdRev_ne
    | some y =>
      rw [hg] at h1
      simpa using h1
  have hdRev_head : (cs.reverse.dropWhile (fun c => c ≠ '/')).head? = some '/' := by
    have hw : cs.reverse.dropWhile (fun c => c ≠ '/') ≠ [] := hdRev_ne
    have h1 := List.head_dropWhile_not (fun c => (c ≠ '/' : Bool)) cs.reverse hw
    have h2 : (cs.reverse.dropWhile (fun c => c ≠ '/')).head? =
        some ((cs.reverse.dropWhile (fun c => c ≠ '/')).head hw) :=
      List.head?_eq_head _
    rw [h2]
    simp only [Option.some.injEq]
    simpa using h1
  have hd_ne : (cs.reverse.dropWhile (fun c => c ≠ '/')).reverse ≠ [] := by
    simpa using hdRev_ne
  have hd_head : ((cs.reverse.dropWhile (fun c => c ≠ '/')).reverse).head? = some '/' := by
    rw [List.head?_reverse]
    exact hdRev_last
  have hd_last : ((cs.reverse.dropWhile (fun c => c ≠ '/')).reverse).getLast? = some '/' := by
    rw [List.getLast?_reverse]
    exact hdRev_head
  have hd_len : ((cs.reverse.dropWhile (fun c => c ≠ '/')).reverse).length ≤ cs.length := by
    rw [List.length_reverse]
    calc (cs.reverse.dropWhile (fun c => c ≠ '/')).length
        ≤ cs.reverse.length := (List.dropWhile_sublist _).length_le
      _ = cs.length := List.length_reverse _
  have htw_len : (cs.reverse.takeWhile (fun c => c ≠ '/')).length +
      (cs.reverse.dropWhile (fun c => c ≠ '/')).length = cs.length := by
    have h := congrArg List.length hsplit
    rw [List.length_append, List.length_reverse] at h
    exact h
  have htl_ne : (cs.reverse.takeWhile (fun c => c ≠ '/')).reverse ≠ cs := by
    intro h
    have hlen := congrArg List.length h
    simp only [List.length_reverse] at hlen
    have hpos : 0 < (cs.reverse.dropWhile (fun c => c ≠ '/')).length :=
      List.length_pos.mpr hdRev_ne
    omega
  have hd_eq_iff : ((cs.reverse.dropWhile (fun c => c ≠ '/')).reverse = cs ↔
      cs.reverse.takeWhile (fun c => c ≠ '/') = []) := by
    constructor
    · intro h
      have hlen := congrArg List.length h
      simp only [List.length_reverse] at hlen
      have : (cs.reverse.takeWhile (fun c => c ≠ '/')).length = 0 := by omega
      exact List.length_eq_zero.mp this
    · intro h
      rw [h] at hsplit
      simp only [List.nil_append] at hsplit
      rw [hsplit, List.reverse_reverse]
  simp only [posixSplit]
  rw [if_neg hd_ne]
  by_cases hall : ((cs.reverse.dropWhile (fun c => c ≠ '/')).reverse).all
      (fun c => c = '/') = true
  · rw [if_pos hall]
    by_cases heq : (cs.reverse.dropWhile (fun c => c ≠ '/')).reverse = cs
    · left
      exact ⟨heq, heq ▸ hall⟩
    · right
      refine ⟨heq, htl_ne, hd_head, ?_⟩
      rcases Nat.lt_or_ge ((cs.reverse.dropWhile (fun c => c ≠ '/')).reverse).length
          cs.length with h | h
      · exact h
      · exfalso
        have hlen_eq : ((cs.reverse.dropWhile (fun c => c ≠ '/')).reverse).length =
            cs.length := le_antisymm hd_len h
        simp only [List.length_reverse] at hlen_eq
        have : (cs.reverse.takeWhile (fun c => c ≠ '/')).length = 0 := by omega
        exact heq (hd_eq_iff.mpr (List.length_eq_zero.mp this))
  · rw [if_neg hall]
    right
    have hex : ∃ x ∈ (cs.reverse.dropWhile (fun c => c ≠ '/')).reverse,
        ¬ ((x = '/' : Bool) = true) := by
      by_contra hno
      push_neg at hno
      exact hall (List.all_eq_true.mpr hno)
    have hdw_ne : (((cs.reverse.dropWhile (fun c => c ≠ '/')).reverse).reverse.dropWhile
        (fun c => c = '/')) ≠ [] := by
      intro h
      obtain ⟨x, hx, hxp⟩ := hex
      have := (List.dropWhile_eq_nil_iff).mp h x (by simpa using hx)
      exact hxp this
    have hfst_head : (rstripSlash ((cs.reverse.dropWhile (fun c => c ≠ '/')).reverse)).head? =
        some '/' := by
      unfold rstripSlash
      rw [List.head?_reverse]
      have hsp2 : (((cs.reverse.dropWhile (fun c => c ≠ '/')).reverse).reverse.takeWhile
            (fun c => c = '/')) ++
          (((cs.reverse.dropWhile (fun c => c ≠ '/')).reverse).reverse.dropWhile
            (fun c => c = '/')) =
          ((cs.reverse.dropWhile (fun c => c ≠ '/')).reverse).reverse :=
        List.takeWhile_append_dropWhile _ _
      have h1 : (((cs.reverse.dropWhile (fun c => c ≠ '/')).reverse).reverse).getLast? =
          some '/' := by
        rw [List.getLast?_reverse]
        exact hd_head
      rw [← hsp2, List.getLast?_append] at h1
      cases hg : (((cs.reverse.dropWhile (fun c => c ≠ '/')).reverse).reverse.dropWhile
          (fun c => c = '/')).getLast? with
      | none => exact absurd (List.getLast?_eq_none_iff.mp hg) hdw_ne
      | some y =>
        rw [hg] at h1
        simpa using h1
    have hfst_len : (rstripSlash ((cs.reverse.dropWhile (fun c => c ≠ '/')).reverse)).length <
        cs.length := by
      unfold rstripSlash
      rw [List.length_reverse]
      obtain ⟨v, hv⟩ : ∃ v, ((cs.reverse.dropWhile (fun c => c ≠ '/')).reverse).reverse =
          '/' :: v := by
        have h1 : (((cs.reverse.dropWhile (fun c => c ≠ '/')).reverse).reverse).head? =
            some '/' := by
          rw [List.head?_reverse]
          exact hd_last
        cases hc : ((cs.reverse.dropWhile (fun c => c ≠ '/')).reverse).reverse with
        | nil => rw [hc] at h1; simp at h1
        | cons a t =>
          rw [hc] at h1
          simp only [List.head?_cons, Option.some.injEq] at h1
          exact ⟨t, by rw [h1]⟩
      rw [hv]
      rw [List.dropWhile_cons_of_pos (by simp)]
      have h2 : (v.dropWhile (fun c => c = '/')).length ≤ v.length :=
        (List.dropWhile_sublist _).length_le
      have h3 : ('/' :: v).length = ((cs.reverse.dropWhile (fun c => c ≠ '/')).reverse).length := by
        rw [← hv, List.length_reverse]
      have h4 := hd_len
      simp only [List.length_cons] at h3
      omega
    exact ⟨by intro h; exact absurd (congrArg List.length h) (by intro h2; rw [h2] at hfst_len; omega),
      htl_ne, hfst_head, hfst_len⟩

theorem splitallGo_abs : ∀ (fuel : Nat) (cs : Chars) (acc : List Chars),
    cs.length < fuel → cs.head? = some '/' →
    ∃ h t, splitallGo fuel cs acc = h :: t ∧ h ≠ [] ∧
      h.all (fun c => c = '/') = true := by
  intro fuel
  induction fuel with
  | zero => intro cs acc hlt _; exact absurd hlt (Nat.not_lt_zero _)
  | succ n ih =>
    intro cs acc hlt hhead
    have hcs_ne : cs ≠ [] := by intro h; rw [h] at hhead; simp at hhead
    rcases posixSplit_abs cs hhead with ⟨heq, hall⟩ | ⟨hne1, hne2, hh, hlen⟩
    · refine ⟨cs, acc, ?_, hcs_ne, hall⟩
      simp only [splitallGo]
      rw [if_pos heq, heq]
    · simp only [splitallGo]
      rw [if_neg hne1, if_neg hne2]
      exact ih (posixSplit cs).1 ((posixSplit cs).2 :: acc) (by omega) hh

theorem splitall_abs (p : String) (hp : p.data.head? = some '/') :
    ∃ (h : String) (t : List String), splitall p = h :: t ∧ h.data ≠ [] ∧
      h.data.all (fun c => c = '/') = true := by
  obtain ⟨hc, tc, hgo, hne, hall⟩ :=
    splitallGo_abs (p.data.length + 1) p.data [] (Nat.lt_succ_self _) hp
  refine ⟨String.mk hc, tc.map String.mk, ?_, hne, hall⟩
  unfold splitall
  rw [hgo]
  rfl

end Sacred

namespace Sacred

theorem normpath_head (s : String) (hs : s.data.head? = some '/') :
    (normpath s).data.head? = some '/' := by
  have hne : ¬ s = "" := by
    intro h
    rw [h] at hs
    simp at hs
  obtain ⟨t, ht⟩ : ∃ t, s.data = '/' :: t := by
    cases hc : s.data with
    | nil => rw [hc] at hs; simp at hs
    | cons a u =>
      rw [hc] at hs
      simp only [List.head?_cons, Option.some.injEq] at hs
      exact ⟨u, by rw [hs]⟩
  have h1 : s.data.take 1 = ['/'] := by rw [ht]; rfl
  have hrep : ∀ (k : Nat), 0 < k → ∀ (l : Chars),
      ((if List.replicate k '/' ++ l = [] then "."
        else String.mk (List.replicate k '/' ++ l)) : String).data.head? = some '/' := by
    intro k hk l
    obtain ⟨k', rfl⟩ : ∃ k', k = k' + 1 := ⟨k - 1, by omega⟩
    rw [if_neg (by simp [List.replicate_succ])]
    simp [List.replicate_succ]
  unfold normpath
  rw [if_neg hne]
  dsimp only
  rw [if_pos h1]
  by_cases h2 : s.data.take 2 = ['/', '/'] ∧ s.data.take 3 ≠ ['/', '/', '/']
  · rw [if_pos h2]
    exact hrep 2 (by omega) _
  · rw [if_neg h2]
    exact hrep 1 (by omega) _

theorem abspath_head (cwd p : String) (hcwd : cwd.data.head? = some '/') :
    (abspath cwd p).data.head? = some '/' := by
  obtain ⟨t, ht⟩ : ∃ t, cwd.data = '/' :: t := by
    cases hc : cwd.data with
    | nil => rw [hc] at hcwd; simp at hcwd
    | cons a u =>
      rw [hc] at hcwd
      simp only [List.head?_cons, Option.some.injEq] at hcwd
      exact ⟨u, by rw [hcwd]⟩
  unfold abspath
  by_cases hp : p.data.head? = some '/'
  · rw [if_pos hp]
    exact normpath_head p hp
  · rw [if_neg hp]
    apply normpath_head
    unfold joinP
    rw [if_neg hp]
    by_cases h2 : cwd.data = [] ∨ cwd.data.getLast? = some '/'
    · rw [if_pos h2]
      simp [ht]
    · rw [if_neg h2]
      simp [ht]

theorem pySplitext_no_dot (x : String) (hx : '.' ∉ x.data) :
    pySplitext x = (x, "") := by
  have hfind : x.data.reverse.findIdx? (fun c => c = '.') = none := by
    rw [List.findIdx?_eq_none_iff]
    intro c hc
    have hcm : c ∈ x.data := by simpa using hc
    simp only [decide_eq_false_iff_not]
    intro h
    rw [h] at hcm
    exact hx hcm
  unfold pySplitext
  simp only [hfind]

theorem chSplit_mem_subset (sep : Char) :
    ∀ (cs seg : Chars), seg ∈ chSplit sep cs → ∀ c ∈ seg, c ∈ cs := by
  intro cs
  induction cs with
  | nil =>
    intro seg hseg c hc
    simp only [chSplit, List.mem_singleton] at hseg
    subst hseg
    simp at hc
  | cons a rest ih =>
    intro seg hseg c hc
    simp only [chSplit] at hseg
    by_cases ha : a = sep
    · rw [if_pos ha] at hseg
      rcases List.mem_cons.mp hseg with rfl | hseg
      · simp at hc
      · exact List.mem_cons_of_mem _ (ih seg hseg c hc)
    · rw [if_neg ha] at hseg
      cases htl : chSplit sep rest with
      | nil =>
        rw [htl] at hseg
        simp only [List.mem_singleton] at hseg
        subst hseg
        simp only [List.mem_singleton] at hc
        subst hc
        exact List.mem_cons_self _ _
      | cons seg₀ segs =>
        rw [htl] at hseg
        rcases List.mem_cons.mp hseg with rfl | hseg
        · rcases List.mem_cons.mp hc with rfl | hc
          · exact List.mem_cons_self _ _
          · have hseg₀ : seg₀ ∈ chSplit sep rest := by
              rw [htl]; exact List.mem_cons_self _ _
            exact List.mem_cons_of_mem _ (ih seg₀ hseg₀ c hc)
        · have hmem : seg ∈ chSplit sep rest := by
            rw [htl]; exact List.mem_cons_of_mem _ hseg
          exact List.mem_cons_of_mem _ (ih seg hmem c hc)

theorem splitDots_no_slash (modname : String) (hm : '/' ∉ modname.data) :
    ∀ c ∈ splitDots modname, '/' ∉ c.data := by
  intro c hc hsl
  unfold splitDots at hc
  obtain ⟨seg, hseg, hmk⟩ := List.mem_map.mp hc
  have hdata : c.data = seg := by rw [← hmk]
  rw [hdata] at hsl
  exact hm (chSplit_mem_subset '.' modname.data seg hseg '/' hsl)

theorem zip_all_eq_iff : ∀ (l₁ l₂ : List String),
    ((l₁.zip l₂).all fun pm => pm.1 = pm.2) = true ↔
      l₁.take l₂.length = l₂.take l₁.length := by
  intro l₁
  induction l₁ with
  | nil => intro l₂; simp
  | cons a as ih =>
    intro l₂
    cases l₂ with
    | nil => simp
    | cons b bs =>
      simp only [List.zip_cons_cons, List.all_cons, Bool.and_eq_true,
        List.length_cons, List.take_succ_cons, List.cons.injEq,
        decide_eq_true_eq]
      rw [ih]

theorem bool_eq_of_iff {a b : Bool} (h : (a = true) ↔ (b = true)) : a = b := by
  cases a <;> cases b <;> simp_all

end Sacred

namespace Sacred

theorem convert_abs_head (q : String) (hq : q.data.head? = some '/') :
    ∃ (h : String) (rest : List String),
      convert_path_to_module_parts q = h :: rest ∧ h.data ≠ [] ∧
      h.data.all (fun c => c = '/') = true := by
  obtain ⟨h, t, hsp, hne, hall⟩ := splitall_abs q hq
  unfold convert_path_to_module_parts
  rw [hsp]
  cases t with
  | nil =>
    have hni : ¬ (([h] : List String).getLast?.getD "" = "__init__.py" ∨
        ([h] : List String).getLast?.getD "" = "__init__.pyc") := by
      have hgl : ([h] : List String).getLast?.getD "" = h := rfl
      rw [hgl]
      rintro (heq | heq) <;> rw [heq] at hall <;> exact absurd hall (by decide)
    rw [if_neg hni]
    have hdot : '.' ∉ h.data := by
      intro hd
      have hch := List.all_eq_true.mp hall _ hd
      simp at hch
    have hse : pySplitext h = (h, "") := pySplitext_no_dot h hdot
    refine ⟨h, [], ?_, hne, hall⟩
    show ([h] : List String).dropLast ++
        [(pySplitext (([h] : List String).getLast?.getD "")).1] = [h]
    have hgl : ([h] : List String).getLast?.getD "" = h := rfl
    rw [hgl, hse]
    rfl
  | cons b bs =>
    by_cases hcond : ((h :: b :: bs).getLast?.getD "" = "__init__.py" ∨
        (h :: b :: bs).getLast?.getD "" = "__init__.pyc")
    · rw [if_pos hcond]
      have hd : (h :: b :: bs).dropLast = h :: (b :: bs).dropLast := by simp
      exact ⟨h, (b :: bs).dropLast, hd, hne, hall⟩
    · rw [if_neg hcond]
      have hd : (h :: b :: bs).dropLast ++
            [(pySplitext ((h :: b :: bs).getLast?.getD "")).1] =
          h :: ((b :: bs).dropLast ++
            [(pySplitext ((h :: b :: bs).getLast?.getD "")).1]) := by simp
      exact ⟨h, (b :: bs).dropLast ++
        [(pySplitext ((h :: b :: bs).getLast?.getD "")).1], hd, hne, hall⟩

theorem tier3_eq (cwd filename modname : String)
    (hcwd : cwd.data.head? = some '/') (hmod : '/' ∉ modname.data) :
    (((convert_path_to_module_parts (abspath cwd filename)).reverse.zip
        (splitDots modname).reverse).all fun pm => pm.1 = pm.2) =
      (splitDots modname).isSuffixOf
        (convert_path_to_module_parts (abspath cwd filename)) := by
  obtain ⟨h, rest, hA, hne, hall⟩ :=
    convert_abs_head (abspath cwd filename) (abspath_head cwd filename hcwd)
  set A := convert_path_to_module_parts (abspath cwd filename) with hAdef
  set M := splitDots modname with hMdef
  obtain ⟨c, hc⟩ := List.exists_mem_of_ne_nil h.data hne
  have hcs : c = '/' := by
    have hx := List.all_eq_true.mp hall c hc
    simpa using hx
  subst hcs
  apply bool_eq_of_iff
  rw [zip_all_eq_iff, List.isSuffixOf_iff_suffix]
  simp only [List.length_reverse]
  by_cases hlen : M.length ≤ A.length
  · have hMr : M.reverse.take A.length = M.reverse :=
      List.take_of_length_le (by rw [List.length_reverse]; exact hlen)
    rw [hMr]
    constructor
    · intro hEq
      have hpre : M.reverse <+: A.reverse := by
        rw [List.prefix_iff_eq_take, List.length_reverse]
        exact hEq.symm
      exact List.reverse_prefix.mp hpre
    · intro hsuf
      have hpre : M.reverse <+: A.reverse := List.reverse_prefix.mpr hsuf
      have hEq := List.prefix_iff_eq_take.mp hpre
      rw [List.length_reverse] at hEq
      exact hEq.symm
  · push_neg at hlen
    have hAr : A.reverse.take M.length = A.reverse :=
      List.take_of_length_le (by rw [List.length_reverse]; omega)
    constructor
    · intro hEq
      exfalso
      rw [hAr] at hEq
      have hpre : A.reverse <+: M.reverse := by
        rw [hEq]
        exact List.take_prefix _ _
      have hsuf : A <:+ M := List.reverse_prefix.mp hpre
      have hmemA : h ∈ A := by rw [hA]; exact List.mem_cons_self _ _
      have hmemM : h ∈ M := hsuf.sublist.mem hmemA
      exact splitDots_no_slash modname hmod h hmemM hc
    · intro hsuf
      exfalso
      have := hsuf.length_le
      omega

/-! ## Claim theorem C1 -/

/-- C1: `is_local_source` decides by exactly three ordered tiers, matching
the specification's description — under-base check, exact match of the
relative path's module parts with the dotted name's components, the strict
length cut-off, and the trailing-components (suffix) comparison against the
absolute path's module parts — for every working directory that is absolute
(as `os.getcwd()` always is) and every dotted module name (which contains no
path separator); and the three spec examples evaluate as claimed. -/
theorem c1_is_local_source_three_tiers :
    (∀ cwd filename modname experiment_path : String,
      cwd.data.head? = some '/' → '/' ∉ modname.data →
      is_local_source cwd filename modname experiment_path =
        is_local_source_spec cwd filename modname experiment_path) ∧
    is_local_source "/cwd" "/exp/foo/bar.py" "foo.bar" "/exp" = true ∧
    is_local_source "/cwd" "/other/bar.py" "foo.bar" "/exp" = false ∧
    is_local_source "/cwd" "/exp/foo/bar/baz.py" "foo.bar" "/exp" = false := by
  refine ⟨fun cwd filename modname experiment_path hcwd hmod => ?_,
    by decide, by decide, by decide⟩
  unfold is_local_source is_local_source_spec
  rcases Bool.eq_false_or_eq_true (is_subdir cwd filename experiment_path) with h1 | h1
  · have hcond : ¬ ¬ (is_subdir cwd filename experiment_path = true) := by simp [h1]
    rw [if_neg hcond, if_neg hcond]
    dsimp only
    by_cases h2 : convert_path_to_module_parts (relpath cwd filename experiment_path) =
        splitDots modname
    · rw [if_pos h2, if_pos h2]
    · rw [if_neg h2, if_neg h2]
      by_cases h3 : (splitDots modname).length <
          (convert_path_to_module_parts (relpath cwd filename experiment_path)).length
      · rw [if_pos h3, if_pos h3]
      · rw [if_neg h3, if_neg h3]
        exact tier3_eq cwd filename modname hcwd hmod
  · have hcond : ¬ (is_subdir cwd filename experiment_path = true) := by simp [h1]
    rw [if_pos hcond, if_pos hcond]

/-- Witness for C1 at a concrete absolute working directory and dotted name. -/
theorem c1_is_local_source_three_tiers_witness :
    is_local_source "/cwd" "/exp/a.py" "a" "/exp" =
      is_local_source_spec "/cwd" "/exp/a.py" "a" "/exp" :=
  c1_is_local_source_three_tiers.1 "/cwd" "/exp/a.py" "a" "/exp" (by decide) (by decide)

end Sacred
